import Mathlib

/-!
Verification of nfreezer (nfreezer.py) against its natural-language
specification.  The Python source is shallowly embedded: pure fragments of
the program become Lean functions over `List Nat` byte strings (one `Nat`
per byte, kept below 256 where it matters), Python dicts become association
lists consumed through `List.lookup`, and the external AES-GCM / PBKDF2
library primitives are parameters of the development (a `GCM` structure and
a `kdf` function) since their internals are not part of this repository.
-/

namespace NFreezer

/-! ## Generic list helpers (used to reason about the frame layout) -/

theorem take_of_append {α : Type} (a b : List α) (n : Nat) (h : a.length = n) :
    (a ++ b).take n = a := by
  subst h; exact List.take_left a b

theorem drop_of_append {α : Type} (a b : List α) (n : Nat) (h : a.length = n) :
    (a ++ b).drop n = b := by
  subst h; exact List.drop_left a b

theorem set_take_of_le {α : Type} (l : List α) (i n : Nat) (b : α) (h : n ≤ i) :
    (l.set i b).take n = l.take n := by
  induction l generalizing i n with
  | nil => simp
  | cons x xs ih =>
    cases i with
    | zero => cases n with
      | zero => simp
      | succ m => omega
    | succ j => cases n with
      | zero => simp
      | succ m => simp only [List.set, List.take]; rw [ih j m (by omega)]

theorem set_drop_of_lt {α : Type} (l : List α) (i n : Nat) (b : α) (h : i < n) :
    (l.set i b).drop n = l.drop n := by
  induction l generalizing i n with
  | nil => simp
  | cons x xs ih =>
    cases n with
    | zero => omega
    | succ m =>
      cases i with
      | zero => simp
      | succ j => simp only [List.set, List.drop]; exact ih j m (by omega)

theorem drop_set_of_le {α : Type} (l : List α) (i n : Nat) (b : α) (h : n ≤ i) :
    (l.set i b).drop n = (l.drop n).set (i - n) b := by
  induction l generalizing i n with
  | nil => simp
  | cons x xs ih =>
    cases n with
    | zero => simp
    | succ m =>
      cases i with
      | zero => omega
      | succ j =>
        simp only [List.set, List.drop]
        rw [ih j m (by omega)]
        congr 1
        omega

theorem take_set_of_lt {α : Type} (l : List α) (i n : Nat) (b : α) (h : i < n) :
    (l.set i b).take n = (l.take n).set i b := by
  induction l generalizing i n with
  | nil => simp
  | cons x xs ih =>
    cases n with
    | zero => omega
    | succ m =>
      cases i with
      | zero => simp
      | succ j => simp only [List.set, List.take]; rw [ih j m (by omega)]

theorem getD_set_self {α : Type} (l : List α) (i : Nat) (b d : α)
    (hi : i < l.length) : (l.set i b).getD i d = b := by
  induction l generalizing i with
  | nil => simp at hi
  | cons x xs ih =>
    cases i with
    | zero => simp
    | succ j => simpa using ih j (by simpa using hi)

theorem set_ne_of_ne {α : Type} (l : List α) (i : Nat) (b d : α)
    (hi : i < l.length) (hb : b ≠ l.getD i d) : l.set i b ≠ l := by
  intro h
  have h2 : (l.set i b).getD i d = l.getD i d := by rw [h]
  rw [getD_set_self l i b d hi] at h2
  exact hb h2

theorem getD_append_right {α : Type} (a l : List α) (n j : Nat) (d : α)
    (h : a.length = n) : (a ++ l).getD (n + j) d = l.getD j d := by
  subst h
  induction a with
  | nil => simp
  | cons x xs ih => simpa [Nat.succ_add] using ih

theorem getD_append_left {α : Type} (a l : List α) (j : Nat) (d : α)
    (h : j < a.length) : (a ++ l).getD j d = a.getD j d := by
  induction a generalizing j with
  | nil => simp at h
  | cons x xs ih =>
    cases j with
    | zero => simp
    | succ m => simpa using ih m (by simpa using h)

/-! ## Address parser (nfreezer.py, `parseaddress`, lines 116-122)

`parseaddress(addr)`: if `'@' in addr`, split once on the first `'@'` into
`user` and `r`; if `':' in r and '/' not in user`, split `r` once on the
first `':'` into `host` and `path` and return
`(True, user.strip(), host.strip(), path.strip())`; in every other case
return `(False, None, None, addr)`. -/

/-- One-argument split on the first occurrence of `c` (Python
`s.split(c, 1)`): returns the part before the first `c` and the part after
it.  Only used below when `c` is known to occur in the input. -/
def breakAtChar (c : Char) : List Char → List Char × List Char
  | [] => ([], [])
  | x :: xs =>
    if x = c then ([], xs)
    else ((breakAtChar c xs).1.cons x, (breakAtChar c xs).2)

/-- Python `str.strip()`: remove surrounding whitespace. -/
def trimChars (l : List Char) : List Char :=
  ((l.dropWhile Char.isWhitespace).reverse.dropWhile Char.isWhitespace).reverse

/-- nfreezer.py lines 116-122 (`parseaddress`).  The result mirrors the
Python 4-tuple `(remote, user, host, path)`, with `None` as `Option.none`. -/
def parseaddress (addr : String) : Bool × Option String × Option String × String :=
  if addr.data.contains '@' then
    let p := breakAtChar '@' addr.data
    if p.2.contains ':' && !(p.1.contains '/') then
      let q := breakAtChar ':' p.2
      (true, some (String.mk (trimChars p.1)), some (String.mk (trimChars q.1)),
        String.mk (trimChars q.2))
    else (false, none, none, addr)
  else (false, none, none, addr)

/-- Outcome of the argument checks at the top of `backup`
(nfreezer.py lines 174-190). -/
inductive BackupOutcome where
  | srcMissing
  | badDest
  | proceeds (user host remotepath : String)
deriving DecidableEq

/-- Python truthiness of an `Optional[str]`: None and the empty string are falsy. -/
def optTruthy : Option String → Bool
  | none => false
  | some s => !(s == "")

/-- nfreezer.py lines 174-190: `backup` returns early when the source
directory does not exist (line 177) and when
`not remote or not user or not host or not remotepath` (lines 188-190);
only otherwise does the backup proceed, always over SFTP. -/
def backupGate (srcIsDir : Bool) (dest : String) : BackupOutcome :=
  if !srcIsDir then .srcMissing
  else
    match parseaddress dest with
    | (remote, user, host, remotepath) =>
      if !remote || !(optTruthy user) || !(optTruthy host) || remotepath == "" then
        .badDest
      else .proceeds (user.getD "") (host.getD "") remotepath

/-! ## Crypto pipeline (nfreezer.py, `encrypt` lines 59-79, `decrypt` lines 81-104)

The AES-GCM primitive comes from the external `Crypto.Cipher.AES` library,
not from this repository, so it is a parameter of the development: GCM is a
stream cipher (`cipher.encrypt`/`cipher.decrypt` XOR the data with a
keystream determined by key and nonce and the stream position) together
with an authentication tag (`cipher.digest` / `cipher.verify`) computed
from key, nonce and the whole ciphertext.  PBKDF2 (`Crypto.Protocol.KDF`)
is likewise a parameter `kdf : String → List Nat → List Nat`
(password, salt ↦ key). -/

/-- External AES-GCM primitive: a positional keystream (key → nonce →
byte index → keystream byte) and a tag function (key → nonce →
ciphertext → 16-byte tag). -/
structure GCM where
  ks : List Nat → List Nat → Nat → Nat
  tagf : List Nat → List Nat → List Nat → List Nat

/-- XOR a byte list with a keystream starting at stream position `i`.
This is what the `BLOCKSIZE` read/encrypt/write loops of `encrypt` and
`decrypt` do to the full stream (GCM en/decryption are the same XOR). -/
def xorStream (ks : Nat → Nat) : Nat → List Nat → List Nat
  | _, [] => []
  | i, b :: bs => (b ^^^ ks i) :: xorStream ks (i + 1) bs

/-- nfreezer.py lines 59-79 (`encrypt`): write `salt`, a fresh 16-byte
`nonce` and a 16-byte tag placeholder, stream the plaintext through
AES-GCM in `BLOCKSIZE` blocks, then seek back to offset 32 and overwrite
the placeholder with `cipher.digest()`.  The resulting byte string is
`salt ++ nonce ++ tag ++ ciphertext`. -/
def encrypt (g : GCM) (s key salt nonce : List Nat) : List Nat :=
  salt ++ (nonce ++ (g.tagf key nonce (xorStream (g.ks key nonce) 0 s)
    ++ xorStream (g.ks key nonce) 0 s))

/-- nfreezer.py lines 81-104 (`decrypt`): read the 16-byte salt, nonce and
tag, derive the key with `KDF(pwd, salt)` (the `_KEYCACHE` dict memoizes
this pure derivation, so it is modelled as a direct call), stream the rest
through AES-GCM decryption writing every block to `out`, and finally
`cipher.verify(tag)`; a verification failure only prints
`Incorrect key or file corrupted.`.  Returns the written output together
with the verification outcome (`true` = tag accepted). -/
def decrypt (g : GCM) (kdf : String → List Nat → List Nat) (pwd : String)
    (frame : List Nat) : List Nat × Bool :=
  (xorStream (g.ks (kdf pwd (frame.take 16)) ((frame.drop 16).take 16)) 0
      (frame.drop 48),
    decide (g.tagf (kdf pwd (frame.take 16)) ((frame.drop 16).take 16)
      (frame.drop 48) = (frame.drop 32).take 16))

/-- nfreezer.py lines 468-473 (`restore`, small-file branch): the chunk is
streamed through `decrypt` directly into the freshly opened destination
file, so the file content is exactly the output of `decrypt`, written whether or
not the tag verifies. -/
def restoreChunkFileContent (g : GCM) (kdf : String → List Nat → List Nat)
    (pwd : String) (chunk : List Nat) : List Nat :=
  (decrypt g kdf pwd chunk).1

/-- nfreezer.py lines 99-102: corruption is reported exactly when
`cipher.verify(tag)` raises. -/
def restoreChunkReportsCorruption (g : GCM) (kdf : String → List Nat → List Nat)
    (pwd : String) (chunk : List Nat) : Bool :=
  !(decrypt g kdf pwd chunk).2

theorem xorStream_length (ks : Nat → Nat) (i : Nat) (l : List Nat) :
    (xorStream ks i l).length = l.length := by
  induction l generalizing i with
  | nil => rfl
  | cons b bs ih => simp [xorStream, ih]

theorem xorStream_xorStream (ks : Nat → Nat) (i : Nat) (l : List Nat) :
    xorStream ks i (xorStream ks i l) = l := by
  induction l generalizing i with
  | nil => rfl
  | cons b bs ih =>
    simp only [xorStream, ih]
    rw [Nat.xor_assoc, Nat.xor_self, Nat.xor_zero]

theorem xorStream_lt_256 (ks : Nat → Nat) (i : Nat) (l : List Nat)
    (hl : ∀ b ∈ l, b < 256) (hks : ∀ j, ks j < 256) :
    ∀ b ∈ xorStream ks i l, b < 256 := by
  induction l generalizing i with
  | nil => simp [xorStream]
  | cons b bs ih =>
    intro y hy
    simp only [xorStream, List.mem_cons] at hy
    rcases hy with hy | hy
    · subst hy
      have h1 : b < 2 ^ 8 := hl b (by simp)
      have h2 : ks i < 2 ^ 8 := hks i
      exact Nat.xor_lt_two_pow h1 h2
    · exact ih (i + 1) (fun z hz => hl z (by simp [hz])) y hy

theorem frame_take_16 (g : GCM) (x key salt nonce : List Nat)
    (hsalt : salt.length = 16) :
    (encrypt g x key salt nonce).take 16 = salt := by
  unfold encrypt
  exact take_of_append salt _ 16 hsalt

theorem frame_drop_16 (g : GCM) (x key salt nonce : List Nat)
    (hsalt : salt.length = 16) :
    (encrypt g x key salt nonce).drop 16 =
      nonce ++ (g.tagf key nonce (xorStream (g.ks key nonce) 0 x)
        ++ xorStream (g.ks key nonce) 0 x) := by
  unfold encrypt
  exact drop_of_append salt _ 16 hsalt

theorem frame_drop_32 (g : GCM) (x key salt nonce : List Nat)
    (hsalt : salt.length = 16) (hnonce : nonce.length = 16) :
    (encrypt g x key salt nonce).drop 32 =
      g.tagf key nonce (xorStream (g.ks key nonce) 0 x)
        ++ xorStream (g.ks key nonce) 0 x := by
  have h : (32 : Nat) = 16 + 16 := rfl
  rw [h, ← List.drop_drop, frame_drop_16 g x key salt nonce hsalt]
  exact drop_of_append nonce _ 16 hnonce

theorem frame_drop_48 (g : GCM) (x key salt nonce : List Nat)
    (hsalt : salt.length = 16) (hnonce : nonce.length = 16)
    (htag : (g.tagf key nonce (xorStream (g.ks key nonce) 0 x)).length = 16) :
    (encrypt g x key salt nonce).drop 48 = xorStream (g.ks key nonce) 0 x := by
  have h : (48 : Nat) = 32 + 16 := rfl
  rw [h, ← List.drop_drop, frame_drop_32 g x key salt nonce hsalt hnonce]
  exact drop_of_append _ _ 16 htag

/-- Decrypting a frame produced by `encrypt` under the matching password
returns the plaintext and passes tag verification. -/
theorem decrypt_encrypt (g : GCM) (kdf : String → List Nat → List Nat)
    (p : String) (x salt nonce : List Nat)
    (hsalt : salt.length = 16) (hnonce : nonce.length = 16)
    (htag : ∀ k n c, (g.tagf k n c).length = 16) :
    decrypt g kdf p (encrypt g x (kdf p salt) salt nonce) = (x, true) := by
  unfold decrypt
  rw [frame_take_16 g x _ salt nonce hsalt, frame_drop_16 g x _ salt nonce hsalt,
    frame_drop_32 g x _ salt nonce hsalt hnonce,
    frame_drop_48 g x _ salt nonce hsalt hnonce (htag _ _ _),
    take_of_append nonce _ 16 hnonce, take_of_append _ _ 16 (htag _ _ _),
    xorStream_xorStream]
  simp

/-- Overwriting byte `32 + j` (`j < 16`, i.e. a byte of the stored tag)
with a different value makes tag verification fail. -/
theorem decrypt_tag_tamper (g : GCM) (kdf : String → List Nat → List Nat)
    (p : String) (x salt nonce : List Nat) (j : Nat) (b : Nat)
    (hsalt : salt.length = 16) (hnonce : nonce.length = 16)
    (htag : ∀ k n c, (g.tagf k n c).length = 16)
    (hj : j < 16) (hb : b ≠ (encrypt g x (kdf p salt) salt nonce).getD (32 + j) 0) :
    (decrypt g kdf p ((encrypt g x (kdf p salt) salt nonce).set (32 + j) b)).2 = false := by
  set key := kdf p salt with hkey
  set ct := xorStream (g.ks key nonce) 0 x with hct
  set tg := g.tagf key nonce ct with htg
  have htg16 : tg.length = 16 := htag _ _ _
  have hgetD : (encrypt g x key salt nonce).getD (32 + j) 0 = tg.getD j 0 := by
    unfold encrypt
    have h1 : (32 + j : Nat) = 16 + (16 + j) := by omega
    rw [h1, getD_append_right salt _ 16 (16 + j) 0 hsalt,
      getD_append_right nonce _ 16 j 0 hnonce,
      getD_append_left _ _ j 0 (by rw [htg16]; omega)]
  have hsalt2 : ((encrypt g x key salt nonce).set (32 + j) b).take 16 =
      salt := by
    rw [set_take_of_le _ _ _ _ (by omega), frame_take_16 g x key salt nonce hsalt]
  have hnonce2 : (((encrypt g x key salt nonce).set (32 + j) b).drop 16).take 16 =
      nonce := by
    rw [drop_set_of_le _ _ _ _ (by omega), set_take_of_le _ _ _ _ (by omega),
      frame_drop_16 g x key salt nonce hsalt, take_of_append nonce _ 16 hnonce]
  have htag2 : (((encrypt g x key salt nonce).set (32 + j) b).drop 32).take 16 =
      tg.set j b := by
    rw [drop_set_of_le _ _ _ _ (by omega)]
    have h2 : (32 + j - 32 : Nat) = j := by omega
    rw [h2, take_set_of_lt _ _ _ _ hj, frame_drop_32 g x key salt nonce hsalt hnonce,
      take_of_append _ _ 16 htg16]
  have hct2 : ((encrypt g x key salt nonce).set (32 + j) b).drop 48 = ct := by
    rw [set_drop_of_lt _ _ _ _ (by omega),
      frame_drop_48 g x key salt nonce hsalt hnonce htg16]
  unfold decrypt
  rw [hsalt2, hnonce2, htag2, hct2]
  simp only [decide_eq_false_iff_not]
  intro heq
  have hne : tg.set j b ≠ tg :=
    set_ne_of_ne tg j b 0 (by rw [htg16]; omega) (by rw [hgetD] at hb; exact hb)
  exact hne heq.symm

/-- Overwriting byte `48 + j` (`j` inside the ciphertext) with a different
value makes tag verification fail, provided the tag function detects
single-byte changes of the ciphertext. -/
theorem decrypt_ct_tamper (g : GCM) (kdf : String → List Nat → List Nat)
    (p : String) (x salt nonce : List Nat) (j : Nat) (b : Nat)
    (hks : ∀ k n i, g.ks k n i < 256)
    (htag : ∀ k n c, (g.tagf k n c).length = 16)
    (hdet : ∀ k n (c : List Nat) i y, (∀ z ∈ c, z < 256) → y < 256 →
      i < c.length → y ≠ c.getD i 0 → g.tagf k n (c.set i y) ≠ g.tagf k n c)
    (hx : ∀ z ∈ x, z < 256)
    (hsalt : salt.length = 16) (hnonce : nonce.length = 16)
    (hj : j < x.length) (hblt : b < 256)
    (hb : b ≠ (encrypt g x (kdf p salt) salt nonce).getD (48 + j) 0) :
    (decrypt g kdf p ((encrypt g x (kdf p salt) salt nonce).set (48 + j) b)).2 = false := by
  set key := kdf p salt with hkey
  set ct := xorStream (g.ks key nonce) 0 x with hct
  set tg := g.tagf key nonce ct with htg
  have htg16 : tg.length = 16 := htag _ _ _
  have hctlen : ct.length = x.length := xorStream_length _ _ _
  have hgetD : (encrypt g x key salt nonce).getD (48 + j) 0 = ct.getD j 0 := by
    unfold encrypt
    have h1 : (48 + j : Nat) = 16 + (16 + (16 + j)) := by omega
    rw [h1, getD_append_right salt _ 16 (16 + (16 + j)) 0 hsalt,
      getD_append_right nonce _ 16 (16 + j) 0 hnonce,
      getD_append_right _ _ 16 j 0 htg16]
  have hsalt2 : ((encrypt g x key salt nonce).set (48 + j) b).take 16 = salt := by
    rw [set_take_of_le _ _ _ _ (by omega), frame_take_16 g x key salt nonce hsalt]
  have hnonce2 : (((encrypt g x key salt nonce).set (48 + j) b).drop 16).take 16 =
      nonce := by
    rw [drop_set_of_le _ _ _ _ (by omega), set_take_of_le _ _ _ _ (by omega),
      frame_drop_16 g x key salt nonce hsalt, take_of_append nonce _ 16 hnonce]
  have htag2 : (((encrypt g x key salt nonce).set (48 + j) b).drop 32).take 16 =
      tg := by
    rw [drop_set_of_le _ _ _ _ (by omega), set_take_of_le _ _ _ _ (by omega),
      frame_drop_32 g x key salt nonce hsalt hnonce, take_of_append _ _ 16 htg16]
  have hct2 : ((encrypt g x key salt nonce).set (48 + j) b).drop 48 =
      ct.set j b := by
    rw [drop_set_of_le _ _ _ _ (by omega)]
    have h2 : (48 + j - 48 : Nat) = j := by omega
    rw [h2, frame_drop_48 g x key salt nonce hsalt hnonce htg16]
  unfold decrypt
  rw [hsalt2, hnonce2, htag2, hct2]
  simp only [decide_eq_false_iff_not]
  exact hdet key nonce ct j b
    (xorStream_lt_256 _ 0 x hx (hks key nonce))
    hblt (by omega) (by rw [hgetD] at hb; exact hb)

/-! ### A concrete GCM instance used to evaluate the crypto theorems

Any structure satisfying the assumed AES-GCM properties will do for
witnesses; this one uses the all-zero keystream and a key-dependent
checksum tag, which detects every single-byte change of the ciphertext. -/

/-- A concrete `GCM` instance: zero keystream and a key-dependent
mod-256 checksum in the first tag byte. -/
def toyGCM : GCM :=
  ⟨fun _ _ _ => 0, fun k _ c => ((k.sum + c.sum) % 256) :: List.replicate 15 0⟩

/-- A concrete key-derivation function for evaluation. -/
def toyKDF : String → List Nat → List Nat := fun p _ => [p.length]

theorem toy_hks (k n : List Nat) (i : Nat) : toyGCM.ks k n i < 256 := by
  simp [toyGCM]

theorem toy_htag (k n c : List Nat) : (toyGCM.tagf k n c).length = 16 := by
  simp [toyGCM]

theorem sum_set (c : List Nat) (i b : Nat) (h : i < c.length) :
    (c.set i b).sum + c.getD i 0 = c.sum + b := by
  induction c generalizing i with
  | nil => simp at h
  | cons x xs ih =>
    cases i with
    | zero => simp [List.sum_cons]; omega
    | succ j =>
      have h2 := ih j (by simpa using h)
      simp only [List.set, List.sum_cons, List.getD_cons_succ]
      omega

theorem getD_lt_of_mem_lt (c : List Nat) (i : Nat) (h : i < c.length)
    (hc : ∀ z ∈ c, z < 256) : c.getD i 0 < 256 := by
  induction c generalizing i with
  | nil => simp at h
  | cons x xs ih =>
    cases i with
    | zero => exact hc x (by simp)
    | succ j =>
      simpa using ih j (by simpa using h) (fun z hz => hc z (by simp [hz]))

theorem toy_hdet (k n : List Nat) (c : List Nat) (i y : Nat)
    (hc : ∀ z ∈ c, z < 256) (hy : y < 256) (hi : i < c.length)
    (hne : y ≠ c.getD i 0) : toyGCM.tagf k n (c.set i y) ≠ toyGCM.tagf k n c := by
  intro heq
  simp only [toyGCM, List.cons.injEq] at heq
  have hsum := sum_set c i y hi
  have hci := getD_lt_of_mem_lt c i hi hc
  omega

/-- Claim C2: for every byte sequence `x`, password `p` and 16-byte salt,
decrypting the frame produced by `encrypt(x, key, salt)` with
`key = KDF(p, salt)` under password `p` returns exactly `x` with the tag
accepted; and overwriting any single byte of the tag field of the frame (offset
`32 + j`, `j < 16`) or of its ciphertext (offset `48 + j`,
`j < x.length`) with a different byte makes `decrypt` report corruption.
Stated for every AES-GCM primitive whose tag is 16 bytes and detects
single-byte ciphertext changes. -/
theorem claim_C2_roundtrip_and_tamper (g : GCM)
    (kdf : String → List Nat → List Nat)
    (hks : ∀ k n i, g.ks k n i < 256)
    (htag : ∀ k n c, (g.tagf k n c).length = 16)
    (hdet : ∀ k n (c : List Nat) i y, (∀ z ∈ c, z < 256) → y < 256 →
      i < c.length → y ≠ c.getD i 0 → g.tagf k n (c.set i y) ≠ g.tagf k n c)
    (x : List Nat) (p : String) (salt nonce : List Nat)
    (hx : ∀ z ∈ x, z < 256) (hsalt : salt.length = 16)
    (hnonce : nonce.length = 16) :
    decrypt g kdf p (encrypt g x (kdf p salt) salt nonce) = (x, true)
    ∧ (∀ j b, j < 16 →
        b ≠ (encrypt g x (kdf p salt) salt nonce).getD (32 + j) 0 →
        (decrypt g kdf p
          ((encrypt g x (kdf p salt) salt nonce).set (32 + j) b)).2 = false)
    ∧ (∀ j b, j < x.length → b < 256 →
        b ≠ (encrypt g x (kdf p salt) salt nonce).getD (48 + j) 0 →
        (decrypt g kdf p
          ((encrypt g x (kdf p salt) salt nonce).set (48 + j) b)).2 = false) := by
  refine ⟨decrypt_encrypt g kdf p x salt nonce hsalt hnonce htag, ?_, ?_⟩
  · intro j b hj hb
    exact decrypt_tag_tamper g kdf p x salt nonce j b hsalt hnonce htag hj hb
  · intro j b hj hblt hb
    exact decrypt_ct_tamper g kdf p x salt nonce j b hks htag hdet hx hsalt
      hnonce hj hblt hb

/-- Witness for claim C2 at a concrete plaintext, password and salt. -/
theorem claim_C2_witness :
    decrypt toyGCM toyKDF "a"
      (encrypt toyGCM [7, 42] (toyKDF "a" (List.replicate 16 0))
        (List.replicate 16 0) (List.replicate 16 1)) = ([7, 42], true) :=
  (claim_C2_roundtrip_and_tamper toyGCM toyKDF toy_hks toy_htag toy_hdet
    [7, 42] "a" (List.replicate 16 0) (List.replicate 16 1)
    (by decide) (by decide) (by decide)).1

/-- Claim C3 is refuted by the code: `decrypt` streams every decrypted
block into the destination file before `cipher.verify` runs, and a failed
verification only prints a message, so on a wrong password the full-length
garbage plaintext remains in the file.  Concretely: decrypting a frame
encrypted under password `a` with password `bb` reports corruption, yet
the bytes written to the destination file are non-empty (neither held back
nor truncated). -/
theorem claim_C3_counterexample :
    (decrypt toyGCM toyKDF "bb"
      (encrypt toyGCM [5, 6, 7] (toyKDF "a" (List.replicate 16 0))
        (List.replicate 16 0) (List.replicate 16 1))).2 = false
    ∧ restoreChunkFileContent toyGCM toyKDF "bb"
        (encrypt toyGCM [5, 6, 7] (toyKDF "a" (List.replicate 16 0))
          (List.replicate 16 0) (List.replicate 16 1)) = [5, 6, 7] := by
  constructor
  · decide
  · decide

/-- Claim C3 (amended): when restore decrypts a chunk whose AES-GCM tag
verification fails (for example under a wrong password), the integrity
failure is reported for that chunk, but the destination file receives the
full decrypted stream — one byte per ciphertext byte — regardless of the
verification outcome; nothing is held back or truncated. -/
theorem claim_C3_full_garbage_written (g : GCM)
    (kdf : String → List Nat → List Nat) (pwd : String) (chunk : List Nat) :
    restoreChunkFileContent g kdf pwd chunk = (decrypt g kdf pwd chunk).1
    ∧ (restoreChunkFileContent g kdf pwd chunk).length = (chunk.drop 48).length
    ∧ (restoreChunkReportsCorruption g kdf pwd chunk = true ↔
        (decrypt g kdf pwd chunk).2 = false) := by
  refine ⟨rfl, ?_, ?_⟩
  · exact xorStream_length _ _ _
  · simp [restoreChunkReportsCorruption]

/-- Claim C1 is refuted by the code: `backup` (nfreezer.py lines 188-190)
returns with the message `dest should use the following format: ...`
whenever `parseaddress` classifies `dest` as non-remote, so a plain local
destination path is rejected as malformed instead of being served by a
local-filesystem adapter (only `restore` has one, lines 372-374).
Concretely, `/var/data` parses as local and `backup` rejects it. -/
theorem claim_C1_counterexample :
    (parseaddress "/var/data").1 = false
    ∧ backupGate true "/var/data" = BackupOutcome.badDest := by
  constructor
  · decide
  · decide

/-- Claim C1 (amended): for every existing local source directory and every
destination string without a `user@host:` prefix (one that `parseaddress`
classifies as non-remote), `backup` rejects the destination as malformed
and returns without performing any backup; the local-filesystem adapter
exists only on the restore side. -/
theorem claim_C1_local_dest_rejected (dest : String)
    (h : (parseaddress dest).1 = false) :
    backupGate true dest = BackupOutcome.badDest := by
  unfold backupGate
  rcases hp : parseaddress dest with ⟨r, u, hs, pa⟩
  rw [hp] at h
  simp only at h
  simp [h]

/-- Witness for the amended claim C1 at the example from the spec of a local
path that contains `@` and `:` but has a `/` before the `@`. -/
theorem claim_C1_witness :
    backupGate true "./a@b.com:/hello/" = BackupOutcome.badDest :=
  claim_C1_local_dest_rejected "./a@b.com:/hello/" (by decide)

/-! ## Manifest records and replay (nfreezer.py lines 106-114, 235-240,
402-411)

A decoded manifest record is the 5-tuple returned by
`readdistantfileblock`: `(chunkid, mtime, fsize, h, fn)`. -/

/-- Constant `NULL16BYTES` (nfreezer.py line 24). -/
def NULL16 : List Nat := List.replicate 16 0

/-- Constant `NULL32BYTES` (nfreezer.py line 24). -/
def NULL32 : List Nat := List.replicate 32 0

/-- A decoded manifest record `(chunkid, mtime, fsize, h, fn)`. -/
structure FileBlock where
  chunkid : List Nat
  mtime : Nat
  fsize : Nat
  h : List Nat
  fn : String
deriving DecidableEq

/-- The value stored in `DISTANTFILES[fn]`: `[chunkid, mtime, fsize, h]`. -/
structure FRec where
  chunkid : List Nat
  mtime : Nat
  fsize : Nat
  h : List Nat
deriving DecidableEq

/-- nfreezer.py lines 236-238 (backup replay) and 408-410 (restore replay,
`threaded_flist_decrypt`): `DISTANTFILES[fn] = [chunkid, mtime, fsize, h]`
followed by `if DISTANTFILES[fn][0] == NULL16BYTES: del DISTANTFILES[fn]`.
The Python dict is modelled as an association list consumed through
`List.lookup`; assignment conses the new binding, deletion filters out
every binding of the key. -/
def filesUpdate (m : List (String × FRec)) (r : FileBlock) : List (String × FRec) :=
  let m1 := (r.fn, FRec.mk r.chunkid r.mtime r.fsize r.h) :: m
  if r.chunkid = NULL16 then m1.filter (fun q => !(q.1 == r.fn)) else m1

/-- nfreezer.py lines 236-240: one backup-side replay step also feeds
`DISTANTHASHES[h] = chunkid` when the chunk is present in
`DISTANTCHUNKS`. -/
def backupReplayStep (dchunks : List (List Nat))
    (st : List (String × FRec) × List (List Nat × List Nat)) (r : FileBlock) :
    List (String × FRec) × List (List Nat × List Nat) :=
  (filesUpdate st.1 r,
    if dchunks.contains r.chunkid then (r.h, r.chunkid) :: st.2 else st.2)

/-- nfreezer.py lines 226-240: the backup-side replay of the whole `.files`
log, starting from empty `DISTANTFILES` / `DISTANTHASHES`. -/
def backupReplay (dchunks : List (List Nat)) (log : List FileBlock) :
    List (String × FRec) × List (List Nat × List Nat) :=
  log.foldl (backupReplayStep dchunks) ([], [])

/-- nfreezer.py lines 402-435: the restore-side replay of the decoded
records into `DISTANTFILES` (same per-record update as the backup side). -/
def restoreReplay (log : List FileBlock) : List (String × FRec) :=
  log.foldl filesUpdate []

theorem lookup_filter_ne_self (p : String) (m : List (String × FRec)) :
    List.lookup p (m.filter fun q => !(q.1 == p)) = none := by
  induction m with
  | nil => rfl
  | cons q m ih =>
    by_cases h : q.1 = p
    · simpa [List.filter_cons, h] using ih
    · have hb : (q.1 == p) = false := beq_eq_false_iff_ne.mpr h
      have hb2 : (p == q.1) = false := beq_eq_false_iff_ne.mpr (Ne.symm h)
      simp [List.filter_cons, hb, List.lookup, hb2, ih]

theorem lookup_filter_other (p k : String) (hk : k ≠ p)
    (m : List (String × FRec)) :
    List.lookup p (m.filter fun q => !(q.1 == k)) = List.lookup p m := by
  have hpk : (p == k) = false := beq_eq_false_iff_ne.mpr (Ne.symm hk)
  induction m with
  | nil => rfl
  | cons q m ih =>
    by_cases h : q.1 = k
    · simp [List.filter_cons, h, List.lookup, hpk, ih]
    · have hb : (q.1 == k) = false := beq_eq_false_iff_ne.mpr h
      by_cases h2 : q.1 = p
      · simp [List.filter_cons, hb, List.lookup, h2, hpk, ih]
      · have hb2 : (p == q.1) = false := beq_eq_false_iff_ne.mpr (Ne.symm h2)
        simp [List.filter_cons, hb, List.lookup, hb2, ih]

theorem lookup_update_tombstone (m : List (String × FRec)) (r : FileBlock)
    (h : r.chunkid = NULL16) :
    List.lookup r.fn (filesUpdate m r) = none := by
  unfold filesUpdate
  simp only [h, if_pos rfl]
  exact lookup_filter_ne_self r.fn _

theorem lookup_update_of_fn_ne (m : List (String × FRec)) (r : FileBlock)
    (p : String) (h : r.fn ≠ p) :
    List.lookup p (filesUpdate m r) = List.lookup p m := by
  have hb2 : (p == r.fn) = false := beq_eq_false_iff_ne.mpr (Ne.symm h)
  by_cases ht : r.chunkid = NULL16
  · rw [show filesUpdate m r = m.filter (fun q => !(q.1 == r.fn)) from by
      simp [filesUpdate, ht]]
    exact lookup_filter_other p r.fn h m
  · simp [filesUpdate, ht, List.lookup, hb2]

theorem replay_lookup_none (p : String) (log : List FileBlock) :
    ∀ (m : List (String × FRec)),
    (List.lookup p m = none ∨ ∃ r ∈ log, r.fn = p ∧ r.chunkid = NULL16) →
    (∀ pre r post, log = pre ++ r :: post → r.fn = p → r.chunkid ≠ NULL16 →
      ∃ r2 ∈ post, r2.fn = p ∧ r2.chunkid = NULL16) →
    List.lookup p (log.foldl filesUpdate m) = none := by
  induction log with
  | nil =>
    intro m hseed _
    rcases hseed with hnone | ⟨r, hr, _⟩
    · simpa using hnone
    · simp at hr
  | cons r rest ih =>
    intro m hseed hall
    rw [List.foldl_cons]
    refine ih (filesUpdate m r) ?_ ?_
    · by_cases hfn : r.fn = p
      · by_cases htb : r.chunkid = NULL16
        · left
          rw [← hfn]
          exact lookup_update_tombstone m r htb
        · exact Or.inr (hall [] r rest rfl hfn htb)
      · rcases hseed with hnone | ⟨r2, hr2, hfn2, htb2⟩
        · left
          rw [lookup_update_of_fn_ne m r p hfn]
          exact hnone
        · rcases List.mem_cons.mp hr2 with he | hm
          · exact absurd (he ▸ hfn2) hfn
          · exact Or.inr ⟨r2, hm, hfn2, htb2⟩
    · intro pre r1 post hEq h1 h2
      exact hall (r :: pre) r1 post (by rw [List.cons_append, hEq]) h1 h2

theorem backupReplay_fst_eq (dchunks : List (List Nat)) (log : List FileBlock) :
    ∀ (m : List (String × FRec)) (hm : List (List Nat × List Nat)),
    (log.foldl (backupReplayStep dchunks) (m, hm)).1 = log.foldl filesUpdate m := by
  induction log with
  | nil => intro m hm; rfl
  | cons r rest ih => intro m hm; exact ih (filesUpdate m r) _

/-- Claim C7: for every manifest log in which a tombstone record
(`chunkid = NULL16BYTES`) for a path appears after any non-tombstone
record for that path — i.e. every non-tombstone record for the path is
followed later in the log by a tombstone for it — replaying the whole log
in order leaves the path absent from `DISTANTFILES`, on both the
backup-side replay and the restore-side replay. -/
theorem claim_C7_tombstone_replay (log : List FileBlock) (p : String)
    (dchunks : List (List Nat))
    (hex1 : ∃ pre r post, log = pre ++ r :: post ∧ r.fn = p ∧
      r.chunkid ≠ NULL16 ∧ ∃ r2 ∈ post, r2.fn = p ∧ r2.chunkid = NULL16)
    (hall : ∀ pre r post, log = pre ++ r :: post → r.fn = p →
      r.chunkid ≠ NULL16 → ∃ r2 ∈ post, r2.fn = p ∧ r2.chunkid = NULL16) :
    List.lookup p (backupReplay dchunks log).1 = none
    ∧ List.lookup p (restoreReplay log) = none := by
  have hseed : List.lookup p ([] : List (String × FRec)) = none ∨
      ∃ r ∈ log, r.fn = p ∧ r.chunkid = NULL16 := by
    rcases hex1 with ⟨pre, r, post, hEq, _, _, r2, hr2, hfn2, htb2⟩
    refine Or.inr ⟨r2, ?_, hfn2, htb2⟩
    rw [hEq]
    exact List.mem_append_right pre (List.mem_cons_of_mem r hr2)
  have hmain := replay_lookup_none p log [] hseed hall
  constructor
  · rw [backupReplay, backupReplay_fst_eq]
    exact hmain
  · exact hmain

theorem claim_C7_witness_hall : ∀ pre (r : FileBlock) post,
    ([FileBlock.mk [1] 5 3 [9] "p", FileBlock.mk NULL16 0 0 NULL32 "p"] :
      List FileBlock) = pre ++ r :: post →
    r.fn = "p" → r.chunkid ≠ NULL16 →
    ∃ r2 ∈ post, r2.fn = "p" ∧ r2.chunkid = NULL16 := by
  intro pre r post hEq hfn htb
  match pre with
  | [] =>
    simp only [List.nil_append, List.cons.injEq] at hEq
    exact ⟨FileBlock.mk NULL16 0 0 NULL32 "p", by rw [← hEq.2]; simp, rfl, rfl⟩
  | [x] =>
    simp only [List.cons_append, List.nil_append, List.cons.injEq] at hEq
    exact absurd (by rw [← hEq.2.1]) htb
  | x :: y :: rest =>
    exfalso
    have hlen := congrArg List.length hEq
    simp only [List.length_cons, List.length_append, List.length_nil] at hlen
    omega

/-- Witness for claim C7 on a concrete two-record log: a normal record for
path `p` followed by a tombstone for `p`. -/
theorem claim_C7_witness :
    List.lookup "p" (backupReplay []
      [FileBlock.mk [1] 5 3 [9] "p", FileBlock.mk NULL16 0 0 NULL32 "p"]).1 = none
    ∧ List.lookup "p" (restoreReplay
      [FileBlock.mk [1] 5 3 [9] "p", FileBlock.mk NULL16 0 0 NULL32 "p"]) = none :=
  claim_C7_tombstone_replay _ "p" []
    ⟨[], FileBlock.mk [1] 5 3 [9] "p", [FileBlock.mk NULL16 0 0 NULL32 "p"],
      rfl, rfl, by decide, FileBlock.mk NULL16 0 0 NULL32 "p", by simp, rfl, rfl⟩
    claim_C7_witness_hall

/-- Claim C10: during manifest replay (backup and restore alike), any
record whose `chunkid` equals 16 zero bytes deletes its path from the
replayed `DISTANTFILES`, regardless of the values of `content_hash`,
`mtime` or `size` fields — a zero `chunkid` alone triggers the deletion. -/
theorem claim_C10_zero_chunkid_is_tombstone (m : List (String × FRec))
    (hm : List (List Nat × List Nat)) (dchunks : List (List Nat))
    (chunkid : List Nat) (mtime fsize : Nat) (h : List Nat) (fn : String)
    (hz : chunkid = NULL16) :
    List.lookup fn (filesUpdate m (FileBlock.mk chunkid mtime fsize h fn)) = none
    ∧ List.lookup fn (backupReplayStep dchunks (m, hm)
        (FileBlock.mk chunkid mtime fsize h fn)).1 = none := by
  constructor
  · exact lookup_update_tombstone m (FileBlock.mk chunkid mtime fsize h fn) hz
  · show List.lookup fn (filesUpdate m (FileBlock.mk chunkid mtime fsize h fn)) = none
    exact lookup_update_tombstone m (FileBlock.mk chunkid mtime fsize h fn) hz

/-- Witness for claim C10: a record with zero `chunkid` but non-zero
hash, mtime and size still acts as a tombstone. -/
theorem claim_C10_witness :
    List.lookup "f" (filesUpdate [("f", FRec.mk [1] 1 1 [1])]
      (FileBlock.mk NULL16 3 4 [7] "f")) = none
    ∧ List.lookup "f" (backupReplayStep [] ([("f", FRec.mk [1] 1 1 [1])], [])
        (FileBlock.mk NULL16 3 4 [7] "f")).1 = none :=
  claim_C10_zero_chunkid_is_tombstone [("f", FRec.mk [1] 1 1 [1])] [] []
    NULL16 3 4 [7] "f" rfl

/-! ## The `.files` log reader (nfreezer.py lines 226-234 and 390-400)

Both `backup` and `restore` contain the same loop, verbatim: read 4 bytes,
stop when nothing was read, interpret them as a little-endian length,
read that many bytes, and if fewer arrive print a corruption message and
stop; otherwise keep the frame (backup decodes it on the spot, restore
appends it to `buf`) and continue. -/

/-- Python `int.from_bytes(le, byteorder=little)`. -/
def leVal (l : List Nat) : Nat := l.foldr (fun b acc => b + 256 * acc) 0

/-- Python `n.to_bytes(4, byteorder=little)` (nfreezer.py line 109). -/
def toLE4 (n : Nat) : List Nat :=
  [n % 256, n / 256 % 256, n / 65536 % 256, n / 16777216 % 256]

/-- The shared `.files` splitting loop (nfreezer.py lines 226-234, backup;
lines 390-400, restore): returns the list of complete frames read and
whether the trailing-corruption message was printed. -/
def splitFrames : List Nat → List (List Nat) × Bool
  | [] => ([], false)
  | b :: tl =>
    if (((b :: tl).drop 4).take (leVal ((b :: tl).take 4))).length
        = leVal ((b :: tl).take 4) then
      ((((b :: tl).drop 4).take (leVal ((b :: tl).take 4)))
          :: (splitFrames (((b :: tl).drop 4).drop (leVal ((b :: tl).take 4)))).1,
        (splitFrames (((b :: tl).drop 4).drop (leVal ((b :: tl).take 4)))).2)
    else ([], true)
termination_by l => l.length
decreasing_by
  simp only [List.length_drop, List.length_cons]
  omega

/-- Length-prefixed concatenation of frames, as written by
`newdistantfileblock` (nfreezer.py line 109): each frame is preceded by
its length as 4 little-endian bytes. -/
def encodeFrames : List (List Nat) → List Nat
  | [] => []
  | f :: fs => toLE4 f.length ++ (f ++ encodeFrames fs)

theorem leVal_toLE4 (n : Nat) (h : n < 4294967296) : leVal (toLE4 n) = n := by
  simp only [leVal, toLE4, List.foldr]
  omega

theorem splitFrames_frame (f rest : List Nat) (hf : f.length < 4294967296) :
    splitFrames (toLE4 f.length ++ (f ++ rest)) =
      ((f :: (splitFrames rest).1), (splitFrames rest).2) := by
  have h4 : toLE4 f.length ++ (f ++ rest) =
      (f.length % 256) :: ((f.length / 256 % 256) :: ((f.length / 65536 % 256)
        :: ((f.length / 16777216 % 256) :: (f ++ rest)))) := by
    simp [toLE4]
  have htake : (((f.length % 256) :: ((f.length / 256 % 256)
      :: ((f.length / 65536 % 256) :: ((f.length / 16777216 % 256)
        :: (f ++ rest))))).take 4) = toLE4 f.length := rfl
  have hdrop : (((f.length % 256) :: ((f.length / 256 % 256)
      :: ((f.length / 65536 % 256) :: ((f.length / 16777216 % 256)
        :: (f ++ rest))))).drop 4) = f ++ rest := rfl
  rw [h4, splitFrames, htake, hdrop, leVal_toLE4 f.length hf,
    take_of_append f rest f.length rfl, drop_of_append f rest f.length rfl,
    if_pos rfl]

theorem splitFrames_truncated (t : List Nat) (h4 : 4 ≤ t.length)
    (htr : (t.drop 4).length < leVal (t.take 4)) :
    splitFrames t = ([], true) := by
  match t with
  | [] => simp at h4
  | [a] => simp at h4
  | [a, b] => simp at h4
  | [a, b, c] => simp at h4
  | a :: b :: c :: d :: t2 =>
    have htake : ((a :: b :: c :: d :: t2).take 4) = [a, b, c, d] := rfl
    have hdrop : ((a :: b :: c :: d :: t2).drop 4) = t2 := rfl
    rw [htake, hdrop] at htr
    rw [splitFrames, htake, hdrop, if_neg]
    intro h
    rw [List.length_take] at h
    omega

/-- Claim C9: for every manifest log consisting of well-formed
length-prefixed frames followed by a truncated trailing record (a 4-byte
length prefix is present but fewer bytes than it announces follow), the
reader loop shared verbatim by `backup` (lines 226-234) and `restore`
(lines 390-400) yields exactly the intact frames, in order, and reports
the corruption; no earlier record is lost, and the loop merely stops so
the session continues with the surviving records. -/
theorem claim_C9_truncated_record_tolerated (fs : List (List Nat))
    (t : List Nat) (hf : ∀ f ∈ fs, f.length < 4294967296)
    (h4 : 4 ≤ t.length) (htr : (t.drop 4).length < leVal (t.take 4)) :
    splitFrames (encodeFrames fs ++ t) = (fs, true) := by
  induction fs with
  | nil =>
    rw [encodeFrames, List.nil_append]
    exact splitFrames_truncated t h4 htr
  | cons f fs ih =>
    rw [encodeFrames, List.append_assoc, List.append_assoc,
      splitFrames_frame f (encodeFrames fs ++ t) (hf f (by simp)),
      ih (fun f2 h2 => hf f2 (by simp [h2]))]

/-- Witness for claim C9: two intact frames followed by a length prefix
announcing 5 bytes with only 1 byte left. -/
theorem claim_C9_witness :
    splitFrames (encodeFrames [[1, 2], [3]] ++ [5, 0, 0, 0, 9]) =
      ([[1, 2], [3]], true) :=
  claim_C9_truncated_record_tolerated [[1, 2], [3]] [5, 0, 0, 0, 9]
    (by decide) (by decide) (by decide)

/-! ## Backup classification of one local file (nfreezer.py lines 271-321) -/

inductive Decision where
  | dirSkip
  | nfsSkip
  | unmodified
  | specialSkip
  | sameHash
  | uploadNew
deriving DecidableEq

/-- The externally visible effect of classifying one local file: the
decision taken, the chunk id added to `REQUIREDCHUNKS` (if any), the
manifest record appended to `.files` (if any) and the chunk id uploaded
(if any). -/
structure StepResult where
  decision : Decision
  required : Option (List Nat)
  append : Option FileBlock
  upload : Option (List Nat)
deriving DecidableEq

/-- nfreezer.py lines 287-319: the branch taken when the unmodified test
fails (or the path is unknown): hash the file (`getsha256`, which may fail
with `OSError` on special files, line 289), reuse the chunk when the hash
is in `DISTANTHASHES` (lines 293-298), otherwise upload under a fresh
`uuid4` chunk id (lines 300-319; the small-file and threaded branches have
the same effect on the shared state). -/
def classifyHash (fn : String) (mtime fsize : Nat)
    (hashRes : Option (List Nat)) (freshid : List Nat)
    (DH : List (List Nat × List Nat)) : StepResult :=
  match hashRes with
  | none => StepResult.mk Decision.specialSkip none none none
  | some h =>
    match List.lookup h DH with
    | some cid => StepResult.mk Decision.sameHash (some cid)
        (some (FileBlock.mk cid mtime fsize h fn)) none
    | none => StepResult.mk Decision.uploadNew (some freshid)
        (some (FileBlock.mk freshid mtime fsize h fn)) (some freshid)

/-- nfreezer.py lines 271-321: classification of one local file `fn`.
`isdir` is `os.path.isdir(fn)` (line 273), `stat` is
`os.stat(fn).st_mtime_ns` or `none` when `FileNotFoundError` is raised
(lines 276-281), and line 282 reads
`if fn in DISTANTFILES and DISTANTFILES[fn][1] >= mtime and
DISTANTFILES[fn][2] == fsize` — the unmodified case adds the stored chunk
id to `REQUIREDCHUNKS` and performs no upload and no manifest append
(lines 283-285). -/
def classifyStep (fn : String) (isdir : Bool) (stat : Option Nat)
    (fsize : Nat) (hashRes : Option (List Nat)) (freshid : List Nat)
    (DF : List (String × FRec)) (DH : List (List Nat × List Nat)) : StepResult :=
  if isdir then StepResult.mk Decision.dirSkip none none none
  else
    match stat with
    | none => StepResult.mk Decision.nfsSkip none none none
    | some mtime =>
      match List.lookup fn DF with
      | some r =>
        if mtime ≤ r.mtime ∧ r.fsize = fsize then
          StepResult.mk Decision.unmodified (some r.chunkid) none none
        else classifyHash fn mtime fsize hashRes freshid DH
      | none => classifyHash fn mtime fsize hashRes freshid DH

theorem classifyHash_ne_unmodified (fn : String) (mtime fsize : Nat)
    (hashRes : Option (List Nat)) (freshid : List Nat)
    (DH : List (List Nat × List Nat)) :
    (classifyHash fn mtime fsize hashRes freshid DH).decision ≠
      Decision.unmodified := by
  unfold classifyHash
  cases hashRes with
  | none => simp
  | some h => rcases hlk : List.lookup h DH with _ | cid <;> simp [hlk]

/-- Claim C6: a non-directory local file that was successfully stat-ed is
classified Unmodified — its stored chunk id goes to `REQUIREDCHUNKS`, no
upload and no manifest append happen — if and only if its path is in
`DISTANTFILES` with stored `mtime ≥` current mtime (the comparison is
`≥`, not `==`) and stored size `==` current size. -/
theorem claim_C6_unmodified_iff (fn : String) (mtime fsize : Nat)
    (hashRes : Option (List Nat)) (freshid : List Nat)
    (DF : List (String × FRec)) (DH : List (List Nat × List Nat)) :
    ((classifyStep fn false (some mtime) fsize hashRes freshid DF DH).decision
        = Decision.unmodified ↔
      ∃ r, List.lookup fn DF = some r ∧ mtime ≤ r.mtime ∧ r.fsize = fsize)
    ∧ (∀ r, List.lookup fn DF = some r → mtime ≤ r.mtime → r.fsize = fsize →
        classifyStep fn false (some mtime) fsize hashRes freshid DF DH
          = StepResult.mk Decision.unmodified (some r.chunkid) none none) := by
  rcases hl : List.lookup fn DF with _ | r
  · constructor
    · rw [show classifyStep fn false (some mtime) fsize hashRes freshid DF DH
          = classifyHash fn mtime fsize hashRes freshid DH from by
        simp [classifyStep, hl]]
      simp [classifyHash_ne_unmodified]
    · intro r hr
      exact absurd hr (by simp)
  · by_cases hc : mtime ≤ r.mtime ∧ r.fsize = fsize
    · have he : classifyStep fn false (some mtime) fsize hashRes freshid DF DH
          = StepResult.mk Decision.unmodified (some r.chunkid) none none := by
        simp [classifyStep, hl, hc]
      refine ⟨?_, ?_⟩
      · rw [he]
        simp only [true_iff]
        exact ⟨r, rfl, hc⟩
      · intro r2 hr2 hm hs
        have : r2 = r := by injection hr2 with h2; exact h2.symm
        rw [he, this]
    · have he : classifyStep fn false (some mtime) fsize hashRes freshid DF DH
          = classifyHash fn mtime fsize hashRes freshid DH := by
        simp [classifyStep, hl, hc]
      refine ⟨?_, ?_⟩
      · rw [he]
        simp only [classifyHash_ne_unmodified, false_iff]
        rintro ⟨r2, hr2, hm, hs⟩
        have : r2 = r := by injection hr2 with h2; exact h2.symm
        exact hc ⟨this ▸ hm, this ▸ hs⟩
      · intro r2 hr2 hm hs
        have : r2 = r := by injection hr2 with h2; exact h2.symm
        exact absurd ⟨this ▸ hm, this ▸ hs⟩ hc

/-- Witness for claim C6: stored mtime 10 is strictly greater than the
current mtime 7 and sizes agree, and the file is still Unmodified. -/
theorem claim_C6_witness :
    classifyStep "f" false (some 7) 5 none [2]
      [("f", FRec.mk [1] 10 5 [9])] []
      = StepResult.mk Decision.unmodified (some [1]) none none :=
  (claim_C6_unmodified_iff "f" 7 5 none [2]
    [("f", FRec.mk [1] 10 5 [9])] []).2 (FRec.mk [1] 10 5 [9])
    (by decide) (by decide) (by decide)

/-! ## CLI exclusion list (nfreezer.py lines 488-496 and 179-180, 257-266) -/

/-- A Python value that is either a `str` or a `list` of strings, as
relevant to the `exclusion_list` parameter. -/
inductive PyVal where
  | str (s : String)
  | list (l : List String)
deriving DecidableEq

/-- nfreezer.py lines 490-496 (`console_script`, `backup` verb):
`excl = sys.argv[4]` — a *string* — when a fourth argument is present,
else the list `[]`; no `json.loads` is ever applied. -/
def console_script_excl (argv : List String) : PyVal :=
  match argv.get? 4 with
  | some s => PyVal.str s
  | none => PyVal.list []

/-- nfreezer.py lines 179-180: `if exclusion_list == None or not
isinstance(exclusion_list, list): exclusion_list = []` — a string is not a
list, so it is silently replaced by the empty list. -/
def backup_exclusion_list (v : PyVal) : List String :=
  match v with
  | PyVal.list l => l
  | PyVal.str _ => []

/-- Python `item in fn`: substring test. -/
def pyIn (pat hay : String) : Bool :=
  (List.range (hay.data.length + 1)).any
    (fun i => pat.data.isPrefixOf (hay.data.drop i))

/-- nfreezer.py lines 258-266: a file is kept unless the count of
exclusion items occurring in it as substrings is non-zero. -/
def keepFile (exclusion_list : List String) (fn : String) : Bool :=
  (exclusion_list.countP (fun item => pyIn item fn)) == 0

/-- nfreezer.py lines 254-266: `local_file_list` is `temp_file_list`
restricted to the kept files. -/
def backup_filter (exclusion_list : List String) (temp : List String) :
    List String :=
  temp.filter (keepFile exclusion_list)

/-- Claim C5 is contradicted by the code: on the CLI invocation
`nfreezer backup test/ user@h:/p` with third argument `["mkv"]`, it reaches
`backup` as the raw string, `isinstance(excl, list)` is false, the
exclusion list becomes `[]`, and `film.mkv` is *not* excluded even though
`mkv` is a substring of it; with no third argument the list defaults to
`[]` (that part of the claim holds), and a genuine list passed
programmatically does exclude as described. -/
theorem claim_C5_cli_exclusion_ignored :
    backup_exclusion_list (console_script_excl
      ["nfreezer", "backup", "test/", "user@h:/p", "[\"mkv\"]"]) = []
    ∧ backup_filter (backup_exclusion_list (console_script_excl
        ["nfreezer", "backup", "test/", "user@h:/p", "[\"mkv\"]"]))
        ["film.mkv", "a.txt"] = ["film.mkv", "a.txt"]
    ∧ pyIn "mkv" "film.mkv" = true
    ∧ backup_exclusion_list (console_script_excl
        ["nfreezer", "backup", "test/", "user@h:/p"]) = []
    ∧ backup_filter ["mkv"] ["film.mkv", "a.txt"] = ["a.txt"] := by
  refine ⟨rfl, ?_, ?_, rfl, ?_⟩ <;> decide

/-! ## Restore loop and its regex filters (nfreezer.py lines 453-483) -/

/-- nfreezer.py lines 456-483: the loop over the size-sorted `dist_list`.
On `re.match(include_regex, fn) is None` the loop `break`s (lines
457-459); on `re.match(exclude_regex, fn) is not None` it also `break`s
(lines 460-462).  The regex matchers are abstracted into Boolean
predicates and the per-entry restore work into recording the path, so the
function returns the paths of the entries that get past the filters, in
order. -/
def restore_loop (incl excl : String → Bool) : List FileBlock → List String
  | [] => []
  | e :: rest =>
    if incl e.fn = false then []
    else if excl e.fn = true then []
    else e.fn :: restore_loop incl excl rest

/-- The per-entry filtering behavior that claim C4 describes: an entry
failing the filters is skipped and every subsequent entry of the plan is
still processed. -/
def restore_loop_skip (incl excl : String → Bool) : List FileBlock → List String
  | [] => []
  | e :: rest =>
    if incl e.fn = false then restore_loop_skip incl excl rest
    else if excl e.fn = true then restore_loop_skip incl excl rest
    else e.fn :: restore_loop_skip incl excl rest

/-- Claim C4 is contradicted by the code: with a plan whose first
(largest) entry fails the include filter and whose second entry passes
both filters, the `break` in the code terminates the whole loop and processes
nothing, while the claimed skip-and-continue behavior would process the
second entry. -/
theorem claim_C4_break_not_skip :
    restore_loop (fun fn => fn == "good") (fun _ => false)
      [FileBlock.mk [1] 0 5 [] "bad", FileBlock.mk [2] 0 3 [] "good"] = []
    ∧ restore_loop_skip (fun fn => fn == "good") (fun _ => false)
      [FileBlock.mk [1] 0 5 [] "bad", FileBlock.mk [2] 0 3 [] "good"]
      = ["good"] := by
  constructor <;> decide

/-! ## Orphan garbage collection (nfreezer.py lines 216-217 and 325-331) -/

/-- One hex digit (`bytes.fromhex` accepts both cases). -/
def hexDigitVal (c : Char) : Option Nat :=
  if '0' ≤ c ∧ c ≤ '9' then some (c.toNat - 48)
  else if 'a' ≤ c ∧ c ≤ 'f' then some (c.toNat - 87)
  else if 'A' ≤ c ∧ c ≤ 'F' then some (c.toNat - 55)
  else none

/-- Pairs of hex digits to bytes. -/
def hexPairs : List Char → Option (List Nat)
  | [] => some []
  | [_] => none
  | a :: b :: rest =>
    match hexDigitVal a, hexDigitVal b, hexPairs rest with
    | some x, some y, some tl => some ((16 * x + y) :: tl)
    | _, _, _ => none

/-- Python `bytes.fromhex`. -/
def fromhex (s : String) : Option (List Nat) := hexPairs s.data

/-- nfreezer.py line 217:
the set comprehension building `DISTANTCHUNKS` from `bytes.fromhex(f)`
over the names `f` with `'.' not in f`
— the chunk-id set parsed from the session-start remote listing (names
containing a dot, such as `.files` and `*.tmp`, are discarded). -/
def distantChunksAtStart (names : List String) : Finset (List Nat) :=
  ((names.filter (fun f => !(f.data.contains '.'))).filterMap fromhex).toFinset

/-- nfreezer.py lines 325-331: `delchunks = DISTANTCHUNKS -
REQUIREDCHUNKS`, each member of which is then removed from the remote. -/
def backupDeleteSet (dchunks required : Finset (List Nat)) : Finset (List Nat) :=
  dchunks \ required

/-- Claim C8: the set of chunks removed by orphan GC at the end of a
backup session is exactly the set of chunk ids of dot-free files present
on the remote at session start minus `REQUIREDCHUNKS` as it stands after
all classification and upload decisions; no chunk in `REQUIREDCHUNKS` is
ever removed. -/
theorem claim_C8_gc_delete_set (names : List String)
    (required : Finset (List Nat)) :
    (∀ c, c ∈ backupDeleteSet (distantChunksAtStart names) required ↔
      ((∃ f ∈ names, (f.data.contains '.') = false ∧ fromhex f = some c)
        ∧ c ∉ required))
    ∧ ∀ c ∈ required,
        c ∉ backupDeleteSet (distantChunksAtStart names) required := by
  constructor
  · intro c
    rw [backupDeleteSet, Finset.mem_sdiff, distantChunksAtStart,
      List.mem_toFinset, List.mem_filterMap]
    constructor
    · rintro ⟨⟨f, hf, hfx⟩, hnr⟩
      rw [List.mem_filter] at hf
      exact ⟨⟨f, hf.1, by simpa using hf.2, hfx⟩, hnr⟩
    · rintro ⟨⟨f, hf, hdot, hfx⟩, hnr⟩
      exact ⟨⟨f, List.mem_filter.mpr ⟨hf, by simpa using hdot⟩, hfx⟩, hnr⟩
  · intro c hc hmem
    rw [backupDeleteSet, Finset.mem_sdiff] at hmem
    exact hmem.2 hc

/-- Witness for claim C8: with remote listing `aa`, `bb.tmp`, `cc`,
`.files` and `REQUIREDCHUNKS = {fromhex cc}`, the required chunk is not
deleted. -/
theorem claim_C8_witness :
    ([204] : List Nat) ∉ backupDeleteSet
      (distantChunksAtStart ["aa", "bb.tmp", "cc", ".files"])
      ({[204]} : Finset (List Nat)) :=
  (claim_C8_gc_delete_set ["aa", "bb.tmp", "cc", ".files"] {[204]}).2
    [204] (by decide)

end NFreezer
